import Mathlib

/-!
Verification of the socklink test-harness session driver
(src/tests/testlib.py) and of the configuration-section rewrite
operation exercised by src/tests/test_unit.py.

The embedding works over `List Char` for byte/character streams and
`List String` for line-structured files.  Machine-level concerns
(pty scheduling, wall-clock time) are modelled explicitly: the child
output stream is the full character sequence the driver will read, and
the bounded poll loop of `Term._read_output` is modelled as a function
of the poll index, with the 2 s / 25 ms bound giving a poll budget.
-/

namespace Socklink

/-- Shorthand: the character list of a string literal. -/
def str (s : String) : List Char := s.data

/-- A single-quote character (U+0027), built numerically because it is
used inside the shell redirection templates. -/
def sq : Char := Char.ofNat 39

/-! ## PromptProtocol (testlib.py lines 16-22, 220-222) -/

/-- `PROMPT_MAGIC = "ThisIsThePrompt"` from testlib.py. -/
def promptMagic : List Char := "ThisIsThePrompt".data

/-- Boolean list-prefix test (pattern first). -/
def isPrefixL : List Char → List Char → Bool
  | [], _ => true
  | _ :: _, [] => false
  | a :: as, b :: bs => a == b && isPrefixL as bs

/-- Whether `pat` occurs as a contiguous run anywhere in the list. -/
def occursIn (pat : List Char) : List Char → Bool
  | [] => isPrefixL pat []
  | c :: cs => isPrefixL pat (c :: cs) || occursIn pat cs

/-- `int(...)` applied to a run of decimal digit characters. -/
def parseDigits (ds : List Char) : Nat :=
  ds.foldl (fun acc c => 10 * acc + (c.toNat - 48)) 0

/-- One attempt of the regex `ThisIsThePrompt (\d+):` anchored at the head
of the remaining stream: the literal marker and a space, then a maximal
nonempty digit run that must be followed by a colon. -/
def matchPromptAt (s : List Char) : Option Nat :=
  if isPrefixL (promptMagic ++ [' ']) s then
    if (s.drop (promptMagic.length + 1)).takeWhile Char.isDigit = [] then none
    else if ((s.drop (promptMagic.length + 1)).dropWhile Char.isDigit).head? = some ':' then
      some (parseDigits ((s.drop (promptMagic.length + 1)).takeWhile Char.isDigit))
    else none
  else none

/-- `Term._wait_for_prompt`: scan the child output stream left to right for
the first position where the prompt pattern matches, returning the parsed
exit code.  `none` models the stream closing (pexpect EOF) before a match. -/
def findPrompt : List Char → Option Nat
  | [] => none
  | c :: cs =>
    match matchPromptAt (c :: cs) with
    | some n => some n
    | none => findPrompt cs

/-- Whether the prompt pattern matches anywhere in the stream. -/
def hasPromptMatch : List Char → Bool
  | [] => false
  | c :: cs => (matchPromptAt (c :: cs)).isSome || hasPromptMatch cs

/-- Base-10 digits of `n`, least significant first, by structural recursion
on a fuel bound so the kernel can evaluate it (`[]` for 0). -/
def digitsRevAux : Nat → Nat → List Nat
  | 0, _ => []
  | _ + 1, 0 => []
  | fuel + 1, n + 1 => ((n + 1) % 10) :: digitsRevAux fuel ((n + 1) / 10)

/-- The decimal rendering of a Nat, most significant digit first, as the
shell prints an exit status. -/
def digitChars (n : Nat) : List Char :=
  if n = 0 then ['0'] else ((digitsRevAux n n).map Nat.digitChar).reverse

/-- The text the prompt emits once a command has exited with status `s`,
per the `PS1` template installed by `Sandbox._setup_dotfiles`
(testlib.py line 110): a newline, the marker, a space, the status
expansion, a colon, and two newlines. -/
def promptOutput (s : Nat) : List Char :=
  '\n' :: (promptMagic ++ (' ' :: (digitChars s ++ [':', '\n', '\n'])))

/-! ## OutputCapture (testlib.py lines 205-218) -/

/-- Errors `Term.run` can raise, one constructor per Python exception:
pexpect EOF from `expect`, `FileNotFoundError` re-raised after the poll
bound, and `TermCommandError` with its `exit_code` and `stderr` fields. -/
inductive RunError where
  | eof
  | fileNotFound
  | command (exit_code : Nat) (stderr : List Char)
deriving DecidableEq

/-- `poll_interval = timedelta(milliseconds=25)` in `Term._read_output`. -/
def pollIntervalMs : Nat := 25

/-- `max_wait = timedelta(seconds=2)` in `Term._read_output`. -/
def maxWaitMs : Nat := 2000

/-- The poll budget implied by the 2 s bound at 25 ms per poll. -/
def maxPolls : Nat := maxWaitMs / pollIntervalMs

/-- `Term._read_output`: `file i` is the capture file content observed at
the i-th read attempt (`none` = `FileNotFoundError`).  After the budget is
exhausted the last `FileNotFoundError` propagates. -/
def readOutput (file : Nat → Option (List Char)) : Nat → Nat → Except RunError (List Char)
  | i, 0 =>
    match file i with
    | some txt => Except.ok txt
    | none => Except.error RunError.fileNotFound
  | i, fuel + 1 =>
    match file i with
    | some txt => Except.ok txt
    | none => readOutput file (i + 1) fuel

/-- `.rstrip("\n")`: remove every trailing newline character. -/
def rstripNewlines (s : List Char) : List Char :=
  ((s.reverse).dropWhile (fun c => c == '\n')).reverse

/-! ## SessionDriver (testlib.py lines 167-203) -/

/-- `self.sandbox.root / f"{self.name}-stdout.txt"`. -/
def stdoutTxt (root name : List Char) : List Char :=
  root ++ str "/" ++ name ++ str "-stdout.txt"

/-- `self.sandbox.root / f"{self.name}-stderr.txt"`. -/
def stderrTxt (root name : List Char) : List Char :=
  root ++ str "/" ++ name ++ str "-stderr.txt"

/-- The temporary name `f"{path}.tmp"` used before the rename. -/
def tmpPath (p : List Char) : List Char := p ++ str ".tmp"

/-- The stderr redirection appended by `Term.run` (testlib.py line 185):
` 2> >(tee '{p}.tmp' >&2 && mv '{p}.tmp' '{p}')`. -/
def stderrRedirect (p : List Char) : List Char :=
  str " 2> >(tee " ++ [sq] ++ tmpPath p ++ [sq] ++ str " >&2 && mv " ++ [sq]
    ++ tmpPath p ++ [sq] ++ str " " ++ [sq] ++ p ++ [sq] ++ str ")"

/-- The stdout redirection appended by `Term.run` (testlib.py line 187):
` > >(tee '{p}.tmp' && mv '{p}.tmp' '{p}')`. -/
def stdoutRedirect (p : List Char) : List Char :=
  str " > >(tee " ++ [sq] ++ tmpPath p ++ [sq] ++ str " && mv " ++ [sq]
    ++ tmpPath p ++ [sq] ++ str " " ++ [sq] ++ p ++ [sq] ++ str ")"

/-- The command rewriting of `Term.run` (testlib.py lines 184-187): the
stderr clause is appended when the `stderr` flag is set, then the stdout
clause when the `stdout` flag is set. -/
def rewriteCommand (command : List Char) (stdout stderr : Bool)
    (stdoutPath stderrPath : List Char) : List Char :=
  let c1 := if stderr then command ++ stderrRedirect stderrPath else command
  if stdout then c1 ++ stdoutRedirect stdoutPath else c1

/-- The environment one `Term.run` invocation interacts with: the child
output stream read while waiting for the prompt, and the capture file
contents by poll index for each capture path. -/
structure RunEnv where
  stream : List Char
  stderrFile : Nat → Option (List Char)
  stdoutFile : Nat → Option (List Char)

/-- What one `Term.run` invocation did: the capture paths it selected, the
rewritten command it sent to the shell, and its outcome (a raised error or
the returned optional captured stdout). -/
structure RunTrace where
  stdout_txt : List Char
  stderr_txt : List Char
  rewritten : List Char
  result : Except RunError (Option (List Char))

/-- `Term.run` (testlib.py lines 167-203): select the per-session capture
paths, rewrite the command, send it, wait for the prompt, and either raise
`TermCommandError` on a nonzero exit code (with the trimmed captured
stderr, or the empty string when stderr capture is off) or return the
trimmed captured stdout when requested. -/
def run (root name command : List Char) (stdout stderr : Bool) (env : RunEnv) : RunTrace :=
  let stdoutPath := stdoutTxt root name
  let stderrPath := stderrTxt root name
  let cmd := rewriteCommand command stdout stderr stdoutPath stderrPath
  let result : Except RunError (Option (List Char)) :=
    match findPrompt env.stream with
    | none => Except.error RunError.eof
    | some exit_code =>
      if exit_code ≠ 0 then
        if stderr then
          match readOutput env.stderrFile 0 maxPolls with
          | Except.error e => Except.error e
          | Except.ok txt => Except.error (RunError.command exit_code (rstripNewlines txt))
        else Except.error (RunError.command exit_code [])
      else if stdout then
        match readOutput env.stdoutFile 0 maxPolls with
        | Except.error e => Except.error e
        | Except.ok txt => Except.ok (some (rstripNewlines txt))
      else Except.ok none
  ⟨stdoutPath, stderrPath, cmd, result⟩

/-- The unlink step of `Term.run` (testlib.py lines 177-180): both capture
paths are removed from the filesystem before the command is sent,
`missing_ok=True` making removal of an absent file a no-op. -/
def unlinkCaptures (root name : List Char) (fs : List Char → Option (List Char)) :
    List Char → Option (List Char) :=
  fun p =>
    if p = stdoutTxt root name then none
    else if p = stderrTxt root name then none
    else fs p

/-! ## Sandbox teardown (testlib.py lines 96-106, 122-123) -/

/-- The world the tmux shutdown code acts on: which socket files exist,
which `kill-server` invocations were issued, and which succeeded. -/
structure TmuxWorld where
  present : List Char → Bool
  attempted : List (List Char)
  killed : List (List Char)

/-- `subprocess.run(["tmux", "-S", socket, "kill-server"], check=True)`:
the attempt is always recorded; `ok` tells whether it succeeds or raises
`CalledProcessError` (the Bool in the result). -/
def runKillServer (ok : List Char → Bool) (w : TmuxWorld) (s : List Char) :
    TmuxWorld × Bool :=
  if ok s then
    ({ w with attempted := w.attempted ++ [s], killed := w.killed ++ [s] }, true)
  else
    ({ w with attempted := w.attempted ++ [s] }, false)

/-- `Sandbox._shutdown_tmux_socket`: only acts when the socket file exists,
and the `except CalledProcessError: pass` swallows a failed kill. -/
def shutdownTmuxSocket (ok : List Char → Bool) (w : TmuxWorld) (s : List Char) : TmuxWorld :=
  if w.present s then (runKillServer ok w s).1 else w

/-- `Sandbox.shutdown_all_tmux_sockets`: shut down every registered socket
and clear the registry.  The pair is (new registry, new world). -/
def shutdownAllTmuxSockets (ok : List Char → Bool) (sockets : List (List Char))
    (w : TmuxWorld) : List (List Char) × TmuxWorld :=
  ([], sockets.foldl (shutdownTmuxSocket ok) w)

/-! ## set-socklink-section (tool under test; exercised by test_unit.py) -/

/-- The literal BEGIN marker line, from the expected outputs in
src/tests/test_unit.py. -/
def beginMarker : String := "### SOCKLINK INSTALLATION BEGIN"

/-- The literal END marker line, from the expected outputs in
src/tests/test_unit.py. -/
def endMarker : String := "### SOCKLINK INSTALLATION END"

/-- The delimited section carrying `body`. -/
def sectionLines (body : List String) : List String :=
  beginMarker :: body ++ [endMarker]

/-- Modelled from the spec: the implementation of the
`set-socklink-section` subcommand lives in socklink.sh, which is not part
of the given sources; only its unit tests (src/tests/test_unit.py) are.
Per the spec it locates a delimited, idempotently-replaceable section
framed by the literal BEGIN/END marker lines within an arbitrary text
file, inserting the section, preceded by exactly one blank line of
separation from pre-existing trailing content, if absent, and fully
replacing the interior content on every subsequent run while leaving all
text outside the markers untouched.  The model is line-based: a file is
its list of lines. -/
def setSection (file body : List String) : List String :=
  if beginMarker ∈ file then
    file.takeWhile (fun ln => ln != beginMarker)
      ++ sectionLines body
      ++ (((file.dropWhile (fun ln => ln != beginMarker)).drop 1).dropWhile
            (fun ln => ln != endMarker)).drop 1
  else if file = [] then sectionLines body
  else file ++ [""] ++ sectionLines body

/-! ## Helper lemmas: list prefix matching -/

theorem isPrefixL_iff (p : List Char) : ∀ s : List Char,
    isPrefixL p s = true ↔ s.take p.length = p := by
  induction p with
  | nil => intro s; simp [isPrefixL]
  | cons a as ih =>
    intro s
    cases s with
    | nil => simp [isPrefixL]
    | cons b bs =>
      simp only [isPrefixL, Bool.and_eq_true, beq_iff_eq, List.length_cons,
        List.take_succ_cons, List.cons.injEq, ih]
      constructor
      · rintro ⟨h1, h2⟩; exact ⟨h1.symm, h2⟩
      · rintro ⟨h1, h2⟩; exact ⟨h1.symm, h2⟩

theorem isPrefixL_self_append (p t : List Char) : isPrefixL p (p ++ t) = true := by
  induction p with
  | nil => simp [isPrefixL]
  | cons a as ih => simp [isPrefixL, ih]

theorem isPrefixL_of_append (p q : List Char) : ∀ s : List Char,
    isPrefixL (p ++ q) s = true → isPrefixL p s = true := by
  induction p with
  | nil => intro s _; simp [isPrefixL]
  | cons a as ih =>
    intro s h
    cases s with
    | nil => simp [isPrefixL] at h
    | cons b bs =>
      simp only [List.cons_append, isPrefixL, Bool.and_eq_true] at h ⊢
      exact ⟨h.1, ih bs h.2⟩

theorem matchPromptAt_some_marker {s : List Char} {v : Nat} (h : matchPromptAt s = some v) :
    isPrefixL promptMagic s = true := by
  unfold matchPromptAt at h
  split at h
  · next hp => exact isPrefixL_of_append _ _ _ hp
  · exact absurd h (by simp)

/-- An occurrence of the marker starting strictly inside `c :: cs` and
possibly extending into a following copy of the marker is already visible
in `(c :: cs) ++ promptMagic.dropLast`. -/
theorem no_straddle (c : Char) (cs u : List Char)
    (h : isPrefixL promptMagic ((c :: cs) ++ (promptMagic ++ u)) = true) :
    isPrefixL promptMagic ((c :: cs) ++ promptMagic.dropLast) = true := by
  rw [isPrefixL_iff] at h ⊢
  have hlen : promptMagic.length = 15 := by decide
  have hdl : promptMagic.dropLast = promptMagic.take (promptMagic.length - 1) := by decide
  have hj : promptMagic.length - (c :: cs).length ≤ promptMagic.length - 1 := by
    simp only [List.length_cons]; omega
  have hj15 : promptMagic.length - (c :: cs).length ≤ promptMagic.length := by omega
  rw [List.take_append_eq_append_take,
    List.take_append_of_le_length hj15] at h
  rw [List.take_append_eq_append_take, hdl, List.take_take, inf_eq_left.mpr hj]
  exact h

theorem findPrompt_cons_none {c : Char} {cs : List Char}
    (h : matchPromptAt (c :: cs) = none) : findPrompt (c :: cs) = findPrompt cs := by
  simp [findPrompt, h]

theorem findPrompt_of_match {l : List Char} {v : Nat} (h : matchPromptAt l = some v) :
    findPrompt l = some v := by
  cases l with
  | nil => rw [show matchPromptAt [] = none by decide] at h; exact absurd h (by simp)
  | cons c cs => simp [findPrompt, h]

theorem findPrompt_append_marker : ∀ (pre : List Char) (u : List Char) (v : Nat),
    occursIn promptMagic (pre ++ promptMagic.dropLast) = false →
    matchPromptAt (promptMagic ++ u) = some v →
    findPrompt (pre ++ (promptMagic ++ u)) = some v := by
  intro pre
  induction pre with
  | nil => intro u v _ hm; simpa using findPrompt_of_match hm
  | cons c cs ih =>
    intro u v h hm
    rw [List.cons_append] at h
    simp only [occursIn, Bool.or_eq_false_iff] at h
    have hnone : matchPromptAt (c :: (cs ++ (promptMagic ++ u))) = none := by
      cases hmm : matchPromptAt (c :: (cs ++ (promptMagic ++ u))) with
      | none => rfl
      | some w =>
        have h1 := matchPromptAt_some_marker hmm
        rw [← List.cons_append] at h1
        have h2 := no_straddle c cs u h1
        rw [List.cons_append] at h2
        exact absurd h2 (by simp [h.1])
    rw [List.cons_append, findPrompt_cons_none hnone]
    exact ih u v h.2 hm

/-! ## Helper lemmas: decimal digits -/

theorem digit_char_facts : ∀ d : Nat, d < 10 →
    (Nat.digitChar d).isDigit = true ∧ (Nat.digitChar d).toNat - 48 = d := by decide

theorem digitsRevAux_eq_digits : ∀ (fuel n : Nat), n ≤ fuel →
    digitsRevAux fuel n = Nat.digits 10 n := by
  intro fuel
  induction fuel with
  | zero =>
    intro n hn
    have hz : n = 0 := by omega
    subst hz
    simp [digitsRevAux]
  | succ fuel ih =>
    intro n hn
    cases n with
    | zero => simp [digitsRevAux]
    | succ m =>
      have hdiv : (m + 1) / 10 ≤ fuel := by
        have := Nat.div_lt_self (Nat.succ_pos m) (by norm_num : 1 < 10)
        omega
      show ((m + 1) % 10) :: digitsRevAux fuel ((m + 1) / 10) = Nat.digits 10 (m + 1)
      rw [ih ((m + 1) / 10) hdiv,
        ← Nat.digits_def' (by norm_num : (1:ℕ) < 10) (Nat.succ_pos m)]

theorem digitsRevAux_lt : ∀ (fuel n : Nat), ∀ d ∈ digitsRevAux fuel n, d < 10 := by
  intro fuel
  induction fuel with
  | zero => intro n d hd; simp [digitsRevAux] at hd
  | succ fuel ih =>
    intro n d hd
    cases n with
    | zero => simp [digitsRevAux] at hd
    | succ m =>
      rw [show digitsRevAux (fuel + 1) (m + 1)
          = ((m + 1) % 10) :: digitsRevAux fuel ((m + 1) / 10) from rfl] at hd
      rcases List.mem_cons.mp hd with h | h
      · subst h; exact Nat.mod_lt _ (by norm_num)
      · exact ih _ d h

theorem digitChars_isDigit (n : Nat) : ∀ c ∈ digitChars n, Char.isDigit c = true := by
  intro c hc
  unfold digitChars at hc
  split at hc
  · simp only [List.mem_singleton] at hc; subst hc; decide
  · simp only [List.mem_reverse, List.mem_map] at hc
    obtain ⟨d, hd, rfl⟩ := hc
    exact (digit_char_facts d (digitsRevAux_lt n n d hd)).1

theorem digitChars_ne_nil (n : Nat) : digitChars n ≠ [] := by
  unfold digitChars
  split
  · simp
  · next hn =>
    cases n with
    | zero => exact absurd rfl hn
    | succ m => simp [digitsRevAux]

theorem foldl_digits_reverse : ∀ n : Nat,
    ((Nat.digits 10 n).reverse).foldl (fun a d => 10 * a + d) 0 = n := by
  intro n
  induction n using Nat.strong_induction_on with
  | _ n ih =>
    by_cases hn : n = 0
    · subst hn; simp
    · rw [Nat.digits_def' (by norm_num : (1:ℕ) < 10) (Nat.pos_of_ne_zero hn),
        List.reverse_cons, List.foldl_append,
        ih (n / 10) (Nat.div_lt_self (Nat.pos_of_ne_zero hn) (by norm_num))]
      show 10 * (n / 10) + n % 10 = n
      exact Nat.div_add_mod n 10

theorem foldl_map_digitChar : ∀ (l : List Nat), (∀ d ∈ l, d < 10) → ∀ a : Nat,
    (l.map Nat.digitChar).foldl (fun acc c => 10 * acc + (c.toNat - 48)) a
      = l.foldl (fun acc d => 10 * acc + d) a := by
  intro l
  induction l with
  | nil => intro _ a; rfl
  | cons d l ih =>
    intro h a
    simp only [List.map_cons, List.foldl_cons]
    rw [(digit_char_facts d (h d (by simp))).2]
    exact ih (fun x hx => h x (by simp [hx])) _

theorem parseDigits_digitChars (n : Nat) : parseDigits (digitChars n) = n := by
  by_cases hn : n = 0
  · subst hn; decide
  · unfold parseDigits digitChars
    rw [if_neg hn, digitsRevAux_eq_digits n n (Nat.le_refl n), ← List.map_reverse,
      foldl_map_digitChar _ (fun d hd => Nat.digits_lt_base (by norm_num)
        (List.mem_reverse.mp hd)) 0]
    exact foldl_digits_reverse n

/-! ## Helper lemmas: takeWhile and dropWhile over appends -/

theorem takeWhile_append_all {p : Char → Bool} : ∀ (l1 l2 : List Char),
    (∀ c ∈ l1, p c = true) → (l1 ++ l2).takeWhile p = l1 ++ l2.takeWhile p := by
  intro l1
  induction l1 with
  | nil => intro l2 _; rfl
  | cons a l ih =>
    intro l2 h
    have ha : p a = true := h a (by simp)
    simp only [List.cons_append, List.takeWhile_cons, ha, if_true]
    rw [ih l2 (fun c hc => h c (by simp [hc]))]

theorem dropWhile_append_all {p : Char → Bool} : ∀ (l1 l2 : List Char),
    (∀ c ∈ l1, p c = true) → (l1 ++ l2).dropWhile p = l2.dropWhile p := by
  intro l1
  induction l1 with
  | nil => intro l2 _; rfl
  | cons a l ih =>
    intro l2 h
    have ha : p a = true := h a (by simp)
    simp only [List.cons_append, List.dropWhile_cons, ha, if_true]
    exact ih l2 (fun c hc => h c (by simp [hc]))

/-! ## The prompt pattern matches the shell's own prompt output -/

theorem matchPromptAt_prompt (n : Nat) (rest : List Char) :
    matchPromptAt (promptMagic ++ (' ' :: (digitChars n ++ (':' :: rest)))) = some n := by
  have hre : promptMagic ++ (' ' :: (digitChars n ++ (':' :: rest)))
      = (promptMagic ++ [' ']) ++ (digitChars n ++ (':' :: rest)) := by simp
  rw [hre]
  unfold matchPromptAt
  rw [if_pos (isPrefixL_self_append _ _)]
  have hdrop : ((promptMagic ++ [' ']) ++ (digitChars n ++ (':' :: rest))).drop
      (promptMagic.length + 1) = digitChars n ++ (':' :: rest) := by
    have hl : promptMagic.length + 1 = (promptMagic ++ [' ']).length := by simp
    rw [hl, List.drop_left]
  have htw : (digitChars n ++ (':' :: rest)).takeWhile Char.isDigit = digitChars n := by
    rw [takeWhile_append_all _ _ (digitChars_isDigit n), List.takeWhile_cons]
    simp
  have hdw : (digitChars n ++ (':' :: rest)).dropWhile Char.isDigit = ':' :: rest := by
    rw [dropWhile_append_all _ _ (digitChars_isDigit n), List.dropWhile_cons]
    simp
  rw [hdrop, htw, hdw, if_neg (digitChars_ne_nil n), if_pos (by rw [List.head?_cons]),
    parseDigits_digitChars]

/-! ## Helper lemmas: the bounded poll loop -/

theorem readOutput_all_none (file : Nat → Option (List Char)) :
    ∀ (fuel start : Nat), (∀ i, i ≤ fuel → file (start + i) = none) →
    readOutput file start fuel = Except.error RunError.fileNotFound := by
  intro fuel
  induction fuel with
  | zero =>
    intro start h
    have h0 : file start = none := by simpa using h 0 (Nat.le_refl 0)
    simp [readOutput, h0]
  | succ fuel ih =>
    intro start h
    have h0 : file start = none := by simpa using h 0 (Nat.zero_le _)
    simp only [readOutput, h0]
    refine ih (start + 1) (fun i hi => ?_)
    have hx := h (i + 1) (Nat.succ_le_succ hi)
    have he : start + (i + 1) = start + 1 + i := by omega
    rwa [he] at hx

theorem readOutput_found (file : Nat → Option (List Char)) (txt : List Char) :
    ∀ (j fuel start : Nat), j ≤ fuel → file (start + j) = some txt →
    (∀ i, i < j → file (start + i) = none) →
    readOutput file start fuel = Except.ok txt := by
  intro j
  induction j with
  | zero =>
    intro fuel start _ hj _
    have h0 : file start = some txt := by simpa using hj
    cases fuel <;> simp [readOutput, h0]
  | succ j ih =>
    intro fuel start hle hj hbefore
    have h0 : file start = none := by simpa using hbefore 0 (Nat.succ_pos j)
    cases fuel with
    | zero => omega
    | succ fuel =>
      simp only [readOutput, h0]
      refine ih fuel (start + 1) (Nat.le_of_succ_le_succ hle) ?_ (fun i hi => ?_)
      · have he : start + 1 + j = start + (j + 1) := by omega
        rwa [he]
      · have hx := hbefore (i + 1) (Nat.succ_lt_succ hi)
        have he : start + (i + 1) = start + 1 + i := by omega
        rwa [he] at hx

/-! ## Helper lemmas: trailing-newline trimming -/

theorem head?_dropWhile {p : Char → Bool} : ∀ (l : List Char) (c : Char),
    (l.dropWhile p).head? = some c → p c = false := by
  intro l
  induction l with
  | nil => intro c h; simp [List.dropWhile] at h
  | cons a l ih =>
    intro c h
    rw [List.dropWhile_cons] at h
    by_cases ha : p a = true
    · rw [if_pos ha] at h
      exact ih c h
    · rw [if_neg ha] at h
      simp only [List.head?_cons, Option.some.injEq] at h
      subst h
      simpa using ha

theorem rstripNewlines_decomp (l : List Char) :
    l = rstripNewlines l
        ++ List.replicate ((l.reverse.takeWhile (fun c => c == '\n')).length) '\n' := by
  have hrep : l.reverse.takeWhile (fun c => c == '\n')
      = List.replicate ((l.reverse.takeWhile (fun c => c == '\n')).length) '\n' :=
    List.eq_replicate_of_mem (fun c hc => by simpa using List.mem_takeWhile_imp hc)
  have hrev : (l.reverse.takeWhile (fun c => c == '\n')).reverse
      = List.replicate ((l.reverse.takeWhile (fun c => c == '\n')).length) '\n' := by
    conv_lhs => rw [hrep]
    rw [List.reverse_replicate]
  calc l = l.reverse.reverse := (List.reverse_reverse l).symm
    _ = (l.reverse.takeWhile (fun c => c == '\n')
          ++ l.reverse.dropWhile (fun c => c == '\n')).reverse := by
        rw [List.takeWhile_append_dropWhile]
    _ = (l.reverse.dropWhile (fun c => c == '\n')).reverse
          ++ (l.reverse.takeWhile (fun c => c == '\n')).reverse := by
        rw [List.reverse_append]
    _ = rstripNewlines l
          ++ List.replicate ((l.reverse.takeWhile (fun c => c == '\n')).length) '\n' := by
        rw [hrev]; rfl

theorem rstripNewlines_getLast (l : List Char) :
    (rstripNewlines l).getLast? ≠ some '\n' := by
  unfold rstripNewlines
  rw [List.getLast?_reverse]
  intro h
  have := head?_dropWhile _ _ h
  simp at this

theorem rstripNewlines_no_trailing {l : List Char} (h : l.getLast? ≠ some '\n') :
    rstripNewlines l = l := by
  unfold rstripNewlines
  cases hl : l.reverse with
  | nil =>
    have hnil : l = [] := List.reverse_eq_nil_iff.mp hl
    subst hnil; rfl
  | cons a as =>
    have ha : a ≠ '\n' := by
      intro hae
      apply h
      rw [← List.head?_reverse, hl, hae, List.head?_cons]
    rw [List.dropWhile_cons, if_neg (by simp [ha]), ← hl, List.reverse_reverse]

/-! ## Helper lemmas: capture path uniqueness -/

theorem append_suffix_inj {x y s t : List Char} (hlen : s.length = t.length)
    (h : x ++ s = y ++ t) : x = y ∧ s = t := by
  have hxy : x.length = y.length := by
    have h2 := congrArg List.length h
    simp only [List.length_append] at h2
    omega
  have hx : x = y := by
    have h3 := List.take_left x s
    rw [h, hxy, List.take_left] at h3
    exact h3.symm
  subst hx
  exact ⟨rfl, List.append_cancel_left h⟩

theorem stderrTxt_ne_stdoutTxt (root name root2 name2 : List Char) :
    stderrTxt root name ≠ stdoutTxt root2 name2 := by
  intro he
  unfold stderrTxt stdoutTxt at he
  exact absurd (append_suffix_inj (by decide) he).2 (by decide)

/-! ## Helper lemmas: sandbox teardown -/

theorem shutdownTmuxSocket_present (ok : List Char → Bool) (w : TmuxWorld) (s : List Char) :
    (shutdownTmuxSocket ok w s).present = w.present := by
  by_cases hp : w.present s = true
  · by_cases ho : ok s = true <;> simp [shutdownTmuxSocket, runKillServer, hp, ho]
  · simp [shutdownTmuxSocket, hp]

theorem shutdownTmuxSocket_attempted (ok : List Char → Bool) (w : TmuxWorld) (s : List Char) :
    (shutdownTmuxSocket ok w s).attempted
      = w.attempted ++ (if w.present s then [s] else []) := by
  by_cases hp : w.present s = true
  · by_cases ho : ok s = true <;> simp [shutdownTmuxSocket, runKillServer, hp, ho]
  · simp [shutdownTmuxSocket, hp]

theorem foldl_shutdown (ok : List Char → Bool) :
    ∀ (sockets : List (List Char)) (w : TmuxWorld),
    (sockets.foldl (shutdownTmuxSocket ok) w).attempted
        = w.attempted ++ sockets.filter w.present
    ∧ (sockets.foldl (shutdownTmuxSocket ok) w).present = w.present := by
  intro sockets
  induction sockets with
  | nil => intro w; simp
  | cons s rest ih =>
    intro w
    rw [List.foldl_cons]
    obtain ⟨ha, hp⟩ := ih (shutdownTmuxSocket ok w s)
    rw [shutdownTmuxSocket_present] at hp
    rw [shutdownTmuxSocket_attempted, shutdownTmuxSocket_present] at ha
    refine ⟨?_, hp⟩
    rw [ha, List.filter_cons]
    by_cases hps : w.present s = true
    · simp [hps, List.append_assoc]
    · simp [hps]

/-! ## Helper lemmas: the delimited configuration section -/

theorem takeWhile_ne_marker (a : String) : ∀ (l1 l2 : List String), a ∉ l1 →
    (l1 ++ a :: l2).takeWhile (fun x => x != a) = l1 := by
  intro l1
  induction l1 with
  | nil => intro l2 _; simp [List.takeWhile_cons]
  | cons x xs ih =>
    intro l2 h
    have hx : x ≠ a := fun he => h (by simp [he])
    have hxs : a ∉ xs := fun hm => h (by simp [hm])
    simp only [List.cons_append, List.takeWhile_cons]
    rw [if_pos (by simp [hx]), ih l2 hxs]

theorem dropWhile_ne_marker (a : String) : ∀ (l1 l2 : List String), a ∉ l1 →
    (l1 ++ a :: l2).dropWhile (fun x => x != a) = a :: l2 := by
  intro l1
  induction l1 with
  | nil => intro l2 _; simp [List.dropWhile_cons]
  | cons x xs ih =>
    intro l2 h
    have hx : x ≠ a := fun he => h (by simp [he])
    have hxs : a ∉ xs := fun hm => h (by simp [hm])
    simp only [List.cons_append, List.dropWhile_cons]
    rw [if_pos (by simp [hx]), ih l2 hxs]

theorem setSection_insert (f b : List String) (hf : beginMarker ∉ f) :
    setSection f b = if f = [] then sectionLines b else f ++ [""] ++ sectionLines b := by
  unfold setSection
  rw [if_neg hf]

theorem setSection_replace (pre mid post b : List String)
    (hpre : beginMarker ∉ pre) (hmid : endMarker ∉ mid) :
    setSection (pre ++ sectionLines mid ++ post) b = pre ++ sectionLines b ++ post := by
  have hshape : pre ++ sectionLines mid ++ post
      = pre ++ beginMarker :: (mid ++ endMarker :: post) := by
    simp [sectionLines]
  have hmem : beginMarker ∈ pre ++ sectionLines mid ++ post := by
    simp [sectionLines]
  unfold setSection
  rw [if_pos hmem, hshape, takeWhile_ne_marker _ _ _ hpre, dropWhile_ne_marker _ _ _ hpre]
  simp only [List.drop_succ_cons, List.drop_zero]
  rw [dropWhile_ne_marker _ _ _ hmid]
  simp only [List.drop_succ_cons, List.drop_zero]

theorem count_section_begin (b : List String) (hb : beginMarker ∉ b) :
    List.count beginMarker (sectionLines b) = 1 := by
  have h1 : (endMarker == beginMarker) = false := by decide
  simp [sectionLines, List.count_cons, List.count_append, List.count_eq_zero.mpr hb, h1]

theorem count_section_end (b : List String) (hb : endMarker ∉ b) :
    List.count endMarker (sectionLines b) = 1 := by
  have h1 : (beginMarker == endMarker) = false := by decide
  simp [sectionLines, List.count_cons, List.count_append, List.count_eq_zero.mpr hb, h1]

/-! ## The model reproduces the unit tests of set-socklink-section -/

example : setSection [] ["foo", "bar"]
    = ["### SOCKLINK INSTALLATION BEGIN", "foo", "bar", "### SOCKLINK INSTALLATION END"] := by
  decide

example : setSection ["a"] ["foo", "bar"]
    = ["a", "", "### SOCKLINK INSTALLATION BEGIN", "foo", "bar",
       "### SOCKLINK INSTALLATION END"] := by
  decide

example : setSection ["### SOCKLINK INSTALLATION BEGIN", "### SOCKLINK INSTALLATION END"]
      ["foo", "bar"]
    = ["### SOCKLINK INSTALLATION BEGIN", "foo", "bar", "### SOCKLINK INSTALLATION END"] := by
  decide

example : setSection ["This is a test", "", "### SOCKLINK INSTALLATION BEGIN",
      "### SOCKLINK INSTALLATION END", "The remainder of this file should be unmodified."]
      ["foo", "bar"]
    = ["This is a test", "", "### SOCKLINK INSTALLATION BEGIN", "foo", "bar",
       "### SOCKLINK INSTALLATION END",
       "The remainder of this file should be unmodified."] := by
  decide

/-! ## Claim theorems -/

/-- Claim C1: for every command run through the driver, the exit code the
driver obtains, by matching the completion marker followed by digits in the
child output and parsing those digits, equals the status the shell itself
reported in its prompt expansion for that command.  The hypothesis is the
marker invariant: the marker does not occur in the output preceding the
prompt (nor straddling into it). -/
theorem run_exit_code (pre tail : List Char) (s : Nat)
    (h : occursIn promptMagic ((pre ++ ['\n']) ++ promptMagic.dropLast) = false) :
    findPrompt (pre ++ (promptOutput s ++ tail)) = some s := by
  have hre : pre ++ (promptOutput s ++ tail)
      = (pre ++ ['\n'])
          ++ (promptMagic ++ (' ' :: (digitChars s ++ (':' :: ('\n' :: '\n' :: tail))))) := by
    simp [promptOutput]
  rw [hre]
  exact findPrompt_append_marker _ _ s h (matchPromptAt_prompt s ('\n' :: '\n' :: tail))

/-- Witness for C1: a trivially successful command yields 0 and a trivially
failing one yields the nonzero code 1, both at concrete streams. -/
theorem run_exit_code_witness :
    findPrompt (str "hi\r\n" ++ (promptOutput 0 ++ [])) = some 0
    ∧ findPrompt (str "ls: no\r\n" ++ (promptOutput 1 ++ [])) = some 1 :=
  ⟨run_exit_code (str "hi\r\n") [] 0 (by decide),
   run_exit_code (str "ls: no\r\n") [] 1 (by decide)⟩

/-- Claim C2: when the awaited exit code is nonzero, Term.run raises a
TermCommandError (it does not return normally) carrying exactly that exit
code together with the captured stderr trimmed of trailing newlines, and
with an empty stderr field when stderr capture was not requested. -/
theorem run_nonzero_raises (root name cmd : List Char) (so : Bool) (env : RunEnv)
    (e : Nat) (txt : List Char)
    (hp : findPrompt env.stream = some e) (hne : e ≠ 0)
    (hr : readOutput env.stderrFile 0 maxPolls = Except.ok txt) :
    (run root name cmd so true env).result
        = Except.error (RunError.command e (rstripNewlines txt))
    ∧ (run root name cmd so false env).result
        = Except.error (RunError.command e []) := by
  constructor
  · simp [run, hp, hne, hr]
  · simp [run, hp, hne]

/-- Witness for C2: a command exiting 1 with stderr text raises the command
error with the trimmed text, and with the empty string when stderr capture
is off. -/
theorem run_nonzero_raises_witness :
    (run (str "/sb") (str "t1") (str "false") false true
        ⟨promptOutput 1, fun _ => some (str "oops\n"), fun _ => none⟩).result
      = Except.error (RunError.command 1 (str "oops"))
    ∧ (run (str "/sb") (str "t1") (str "false") false false
        ⟨promptOutput 1, fun _ => some (str "oops\n"), fun _ => none⟩).result
      = Except.error (RunError.command 1 []) := by
  have h := run_nonzero_raises (str "/sb") (str "t1") (str "false") false
      ⟨promptOutput 1, fun _ => some (str "oops\n"), fun _ => none⟩ 1 (str "oops\n")
      (by decide) (by decide) rfl
  refine ⟨?_, h.2⟩
  rw [h.1]
  have hs : rstripNewlines (str "oops\n") = str "oops" := by decide
  rw [hs]

/-- Claim C3: with stdout capture requested and exit code 0, Term.run
returns exactly the captured stdout with only its trailing newlines
trimmed: text not ending in a newline is returned unmodified, the result
never ends in a newline (no trailing empty line), and nothing but trailing
newlines is removed (the original text is the result plus some run of
trailing newlines). -/
theorem run_stdout_exact (root name cmd : List Char) (se : Bool) (env : RunEnv)
    (txt : List Char)
    (hp : findPrompt env.stream = some 0)
    (hr : readOutput env.stdoutFile 0 maxPolls = Except.ok txt) :
    (run root name cmd true se env).result = Except.ok (some (rstripNewlines txt))
    ∧ (txt.getLast? ≠ some '\n' →
        (run root name cmd true se env).result = Except.ok (some txt))
    ∧ txt = rstripNewlines txt
        ++ List.replicate ((txt.reverse.takeWhile (fun c => c == '\n')).length) '\n'
    ∧ (rstripNewlines txt).getLast? ≠ some '\n' := by
  have hmain : (run root name cmd true se env).result
      = Except.ok (some (rstripNewlines txt)) := by
    simp [run, hp, hr]
  exact ⟨hmain, fun h => by rw [hmain, rstripNewlines_no_trailing h],
    rstripNewlines_decomp txt, rstripNewlines_getLast txt⟩

/-- Witness for C3: a command printing two lines without a final newline
returns exactly those two lines, unmodified. -/
theorem run_stdout_exact_witness :
    (run (str "/sb") (str "t1") (str "printf two") true true
        ⟨promptOutput 0, fun _ => none, fun _ => some (str "line one\nline two")⟩).result
      = Except.ok (some (str "line one\nline two")) := by
  have h := run_stdout_exact (str "/sb") (str "t1") (str "printf two") true
      ⟨promptOutput 0, fun _ => none, fun _ => some (str "line one\nline two")⟩
      (str "line one\nline two") (by decide) rfl
  exact h.2.1 (by decide)

/-- Claim C4 counterexample: two distinct invocations of Term.run on the
same session, with different commands and different interaction
environments, select identical stdout and stderr capture paths: the paths
are a function of the session alone, not of the invocation, so they are
shared across command invocations. -/
theorem capture_paths_shared :
    (run (str "/sandbox") (str "term1") (str "echo one") true true
        ⟨promptOutput 0, fun _ => none, fun _ => some []⟩).stderr_txt
      = (run (str "/sandbox") (str "term1") (str "echo two") true true
          ⟨promptOutput 0, fun _ => none, fun _ => some (str "x")⟩).stderr_txt
    ∧ (run (str "/sandbox") (str "term1") (str "echo one") true true
        ⟨promptOutput 0, fun _ => none, fun _ => some []⟩).stdout_txt
      = (run (str "/sandbox") (str "term1") (str "echo two") true true
          ⟨promptOutput 0, fun _ => none, fun _ => some (str "x")⟩).stdout_txt :=
  ⟨rfl, rfl⟩

/-- Claim C4, amended: capture paths are per-session unique rather than
per-invocation unique: sessions with distinct names under a sandbox root
get distinct stdout and distinct stderr paths, and a stdout path never
coincides with any stderr path; within one session the same two paths are
reused by every invocation. -/
theorem capture_paths_per_session (root n1 n2 : List Char) (h : n1 ≠ n2) :
    stdoutTxt root n1 ≠ stdoutTxt root n2
    ∧ stderrTxt root n1 ≠ stderrTxt root n2
    ∧ (∀ root2 m1 m2 : List Char, stdoutTxt root m1 ≠ stderrTxt root2 m2) := by
  refine ⟨?_, ?_, ?_⟩
  · intro he
    unfold stdoutTxt at he
    exact h (List.append_cancel_left (append_suffix_inj rfl he).1)
  · intro he
    unfold stderrTxt at he
    exact h (List.append_cancel_left (append_suffix_inj rfl he).1)
  · intro root2 m1 m2 he
    exact stderrTxt_ne_stdoutTxt root2 m2 root m1 he.symm

/-- Witness for the amended C4 at concrete session names. -/
theorem capture_paths_per_session_witness :
    stdoutTxt (str "/sb") (str "a") ≠ stdoutTxt (str "/sb") (str "b")
    ∧ stderrTxt (str "/sb") (str "a") ≠ stderrTxt (str "/sb") (str "b")
    ∧ (∀ root2 m1 m2 : List Char, stdoutTxt (str "/sb") m1 ≠ stderrTxt root2 m2) :=
  capture_paths_per_session (str "/sb") (str "a") (str "b") (by decide)

/-- Claim C5: when the prompt pattern matches nowhere in the child output
stream (the stream closed before a match), waiting for the prompt yields no
exit code at all and Term.run surfaces the distinct EOF error: it neither
returns exit code 0 nor any other code, and being a total function on the
closed stream it cannot hang once the stream has ended. -/
theorem wait_for_prompt_eof (stream root name cmd : List Char) (so se : Bool)
    (ef sf : Nat → Option (List Char)) (h : hasPromptMatch stream = false) :
    findPrompt stream = none
    ∧ (run root name cmd so se ⟨stream, ef, sf⟩).result = Except.error RunError.eof := by
  have h0 : findPrompt stream = none := by
    clear ef sf
    induction stream with
    | nil => rfl
    | cons c cs ih =>
      simp only [hasPromptMatch, Bool.or_eq_false_iff] at h
      have h1 : matchPromptAt (c :: cs) = none := by
        cases hm : matchPromptAt (c :: cs) with
        | none => rfl
        | some v => rw [hm] at h; exact absurd h.1 (by simp)
      rw [findPrompt_cons_none h1]
      exact ih h.2
  exact ⟨h0, by simp [run, h0]⟩

/-- Witness for C5 at a concrete closed stream holding no prompt match. -/
theorem wait_for_prompt_eof_witness :
    findPrompt (str "goodbye") = none
    ∧ (run (str "/sb") (str "t1") (str "exit") false true
        ⟨str "goodbye", fun _ => none, fun _ => none⟩).result
      = Except.error RunError.eof :=
  wait_for_prompt_eof (str "goodbye") (str "/sb") (str "t1") (str "exit") false true
    (fun _ => none) (fun _ => none) (by decide)

/-- Claim C6: the capture read polls at 25 ms intervals under a 2 s bound
(80 polls): if the file is absent at every poll within the bound the read
raises the distinct file-not-found error rather than returning anything,
and if the file appears at some poll within the bound its full content is
returned. -/
theorem read_output_poll (file : Nat → Option (List Char)) :
    ((∀ i, i ≤ maxPolls → file i = none) →
        readOutput file 0 maxPolls = Except.error RunError.fileNotFound)
    ∧ (∀ j txt, j ≤ maxPolls → file j = some txt → (∀ i, i < j → file i = none) →
        readOutput file 0 maxPolls = Except.ok txt) := by
  constructor
  · intro h
    exact readOutput_all_none file maxPolls 0 (fun i hi => by simpa using h i hi)
  · intro j txt hj hsome hnone
    exact readOutput_found file txt j maxPolls 0 hj (by simpa using hsome)
      (fun i hi => by simpa using hnone i hi)

/-- Witness for C6: a file that never appears raises, and a file appearing
at the third poll returns its full content. -/
theorem read_output_poll_witness :
    readOutput (fun _ => none) 0 maxPolls = Except.error RunError.fileNotFound
    ∧ readOutput (fun i => if i = 2 then some (str "ok") else none) 0 maxPolls
        = Except.ok (str "ok") :=
  ⟨(read_output_poll (fun _ => none)).1 (fun _ _ => rfl),
   (read_output_poll (fun i => if i = 2 then some (str "ok") else none)).2 2 (str "ok")
      (by decide) rfl (fun i hi => by interval_cases i <;> rfl)⟩

/-- Claim C7 counterexample: an invocation of Term.run with stderr capture
disabled sends the caller command text unchanged: no stderr redirection
(and no tee at all) is appended, so stderr is not always redirected. -/
theorem stderr_not_always_redirected :
    (run (str "/sandbox") (str "term1") (str "true") false false
        ⟨promptOutput 0, fun _ => none, fun _ => none⟩).rewritten = str "true"
    ∧ occursIn (str "tee") ((run (str "/sandbox") (str "term1") (str "true") false false
        ⟨promptOutput 0, fun _ => none, fun _ => none⟩).rewritten) = false :=
  ⟨rfl, by decide⟩

/-- Claim C7, amended: the command sent to the shell is the caller text
with redirections appended; the stderr clause is appended whenever stderr
capture is enabled (the default) and the stdout clause whenever stdout
capture is requested, and each clause writes the capture through its
temporary name, the final path plus a ".tmp" suffix, renaming it to the
final name only after the write completes. -/
theorem rewrite_command_shape (root name cmd : List Char) (so se : Bool) (env : RunEnv) :
    (run root name cmd so se env).rewritten
      = cmd ++ (if se then stderrRedirect (stderrTxt root name) else [])
            ++ (if so then stdoutRedirect (stdoutTxt root name) else [])
    ∧ (∀ p : List Char, stderrRedirect p
        = str " 2> >(tee " ++ [sq] ++ (p ++ str ".tmp") ++ [sq] ++ str " >&2 && mv "
            ++ [sq] ++ (p ++ str ".tmp") ++ [sq] ++ str " " ++ [sq] ++ p ++ [sq] ++ str ")")
    ∧ (∀ p : List Char, stdoutRedirect p
        = str " > >(tee " ++ [sq] ++ (p ++ str ".tmp") ++ [sq] ++ str " && mv "
            ++ [sq] ++ (p ++ str ".tmp") ++ [sq] ++ str " " ++ [sq] ++ p ++ [sq] ++ str ")") := by
  refine ⟨?_, fun p => rfl, fun p => rfl⟩
  cases so <;> cases se <;> simp [run, rewriteCommand, List.append_assoc]

/-- Claim C8: idempotent replacement of the delimited configuration
section.  When the file has no BEGIN marker, the section is inserted after
one separating blank line (with no separation for an empty file), and when
the file decomposes around an existing section, the interior is fully
replaced while the text before and after the markers is unchanged; in
both cases a second run with different body text gives exactly the result
of a single run with that latest body, and the result carries exactly one
BEGIN and one END marker line. -/
theorem set_section_idempotent_replace (f b1 b2 : List String)
    (hb1 : beginMarker ∉ b1) (hb1e : endMarker ∉ b1)
    (hb2 : beginMarker ∉ b2) (hb2e : endMarker ∉ b2) :
    (beginMarker ∉ f →
        setSection (setSection f b1) b2 = setSection f b2
      ∧ setSection f b2
          = (if f = [] then sectionLines b2 else f ++ [""] ++ sectionLines b2)
      ∧ List.count beginMarker (setSection f b2) = 1
      ∧ (endMarker ∉ f → List.count endMarker (setSection f b2) = 1))
    ∧ (∀ pre mid post, f = pre ++ sectionLines mid ++ post →
        beginMarker ∉ pre → endMarker ∉ mid →
          setSection (setSection f b1) b2 = setSection f b2
        ∧ setSection f b2 = pre ++ sectionLines b2 ++ post
        ∧ (beginMarker ∉ post → endMarker ∉ pre → endMarker ∉ post →
            List.count beginMarker (setSection f b2) = 1
            ∧ List.count endMarker (setSection f b2) = 1)) := by
  constructor
  · intro hf
    have hins1 := setSection_insert f b1 hf
    have hins2 := setSection_insert f b2 hf
    by_cases hnil : f = []
    · subst hnil
      rw [if_pos rfl] at hins1 hins2
      refine ⟨?_, setSection_insert [] b2 hf, ?_, fun _ => ?_⟩
      · rw [hins1, hins2,
          show sectionLines b1 = [] ++ sectionLines b1 ++ [] by simp,
          setSection_replace [] b1 [] b2 (by simp) hb1e]
        simp
      · rw [hins2]; exact count_section_begin b2 hb2
      · rw [hins2]; exact count_section_end b2 hb2e
    · rw [if_neg hnil] at hins1 hins2
      have hb0 : beginMarker ∉ f ++ [""] := by
        simp only [List.mem_append, List.mem_singleton]
        rintro (h1 | h1)
        · exact hf h1
        · exact absurd h1.symm (by decide)
      refine ⟨?_, setSection_insert f b2 hf, ?_, fun hfe => ?_⟩
      · rw [hins1, hins2,
          show f ++ [""] ++ sectionLines b1 = (f ++ [""]) ++ sectionLines b1 ++ [] by simp,
          setSection_replace (f ++ [""]) b1 [] b2 hb0 hb1e]
        simp
      · rw [hins2, List.count_append, List.count_append,
          List.count_eq_zero.mpr hf, count_section_begin b2 hb2]
        simp [List.count_cons, show ("" == beginMarker) = false by decide]
      · have hfe0 : endMarker ∉ f ++ [""] := by
          simp only [List.mem_append, List.mem_singleton]
          rintro (h1 | h1)
          · exact hfe h1
          · exact absurd h1.symm (by decide)
        rw [hins2, List.count_append, List.count_eq_zero.mpr hfe0,
          count_section_end b2 hb2e]
  · intro pre mid post hdecomp hpre hmid
    subst hdecomp
    have hrep1 := setSection_replace pre mid post b1 hpre hmid
    have hrep2 := setSection_replace pre mid post b2 hpre hmid
    refine ⟨?_, hrep2, fun hpost hpree hposte => ?_⟩
    · rw [hrep1, setSection_replace pre b1 post b2 hpre hb1e, hrep2]
    · rw [hrep2]
      constructor
      · rw [List.count_append, List.count_append, List.count_eq_zero.mpr hpre,
          List.count_eq_zero.mpr hpost, count_section_begin b2 hb2]
      · rw [List.count_append, List.count_append, List.count_eq_zero.mpr hpree,
          List.count_eq_zero.mpr hposte, count_section_end b2 hb2e]

/-- Witness for C8 at a concrete file without a pre-existing section. -/
theorem set_section_witness :
    setSection (setSection ["# rc", "x=1"] ["foo", "bar"]) ["baz"]
      = setSection ["# rc", "x=1"] ["baz"]
    ∧ List.count beginMarker (setSection ["# rc", "x=1"] ["baz"]) = 1 := by
  have h := (set_section_idempotent_replace ["# rc", "x=1"] ["foo", "bar"] ["baz"]
      (by decide) (by decide) (by decide) (by decide)).1 (by decide)
  exact ⟨h.1, h.2.2.1⟩

/-- Claim C9: shutting down all tmux sockets clears the registry, so a
second call operates on an empty registry and is a no-op (idempotence);
every registered socket whose file exists receives its kill attempt
regardless of which kill-server invocations fail (failures are swallowed
and do not prevent release of the remaining resources), and the function
is total, so no failure propagates to the caller. -/
theorem shutdown_all_release (ok : List Char → Bool) (sockets : List (List Char))
    (w : TmuxWorld) :
    shutdownAllTmuxSockets ok (shutdownAllTmuxSockets ok sockets w).1
        (shutdownAllTmuxSockets ok sockets w).2
      = shutdownAllTmuxSockets ok sockets w
    ∧ (shutdownAllTmuxSockets ok sockets w).1 = []
    ∧ (shutdownAllTmuxSockets ok sockets w).2.attempted
        = w.attempted ++ sockets.filter w.present
    ∧ (∀ ok2 : List Char → Bool,
        (shutdownAllTmuxSockets ok2 sockets w).2.attempted
          = (shutdownAllTmuxSockets ok sockets w).2.attempted) :=
  ⟨rfl, rfl, (foldl_shutdown ok sockets w).1,
   fun ok2 => by
     show (sockets.foldl (shutdownTmuxSocket ok2) w).attempted
       = (sockets.foldl (shutdownTmuxSocket ok) w).attempted
     rw [(foldl_shutdown ok2 sockets w).1, (foldl_shutdown ok sockets w).1]⟩

/-- Claim C10: before the command is sent, Term.run unlinks both capture
paths (absence being a no-op), so at send time neither path exists, every
other path is untouched, and a capture read against a path that the
command never rewrites times out with the distinct error instead of
returning a previous invocation's content. -/
theorem unlink_before_send (root name : List Char)
    (fs : List Char → Option (List Char)) :
    unlinkCaptures root name fs (stdoutTxt root name) = none
    ∧ unlinkCaptures root name fs (stderrTxt root name) = none
    ∧ (∀ p, p ≠ stdoutTxt root name → p ≠ stderrTxt root name →
        unlinkCaptures root name fs p = fs p)
    ∧ readOutput (fun _ => unlinkCaptures root name fs (stderrTxt root name)) 0 maxPolls
        = Except.error RunError.fileNotFound
    ∧ readOutput (fun _ => unlinkCaptures root name fs (stdoutTxt root name)) 0 maxPolls
        = Except.error RunError.fileNotFound := by
  have h1 : unlinkCaptures root name fs (stdoutTxt root name) = none := by
    simp [unlinkCaptures]
  have h2 : unlinkCaptures root name fs (stderrTxt root name) = none := by
    unfold unlinkCaptures
    rw [if_neg (stderrTxt_ne_stdoutTxt root name root name), if_pos rfl]
  refine ⟨h1, h2, fun p hp1 hp2 => by simp [unlinkCaptures, hp1, hp2], ?_, ?_⟩
  · simp only [h2]
    exact readOutput_all_none _ maxPolls 0 (fun _ _ => rfl)
  · simp only [h1]
    exact readOutput_all_none _ maxPolls 0 (fun _ _ => rfl)

/-- Witness for C10: a filesystem holding stale content at the stdout
capture path is cleared there while an unrelated path is untouched. -/
theorem unlink_before_send_witness :
    unlinkCaptures (str "/sb") (str "t") (fun _ => some (str "old"))
        (stdoutTxt (str "/sb") (str "t")) = none
    ∧ unlinkCaptures (str "/sb") (str "t") (fun _ => some (str "old"))
        (str "/sb/keep.txt") = some (str "old") :=
  ⟨(unlink_before_send (str "/sb") (str "t") (fun _ => some (str "old"))).1,
   (unlink_before_send (str "/sb") (str "t") (fun _ => some (str "old"))).2.2.1
      (str "/sb/keep.txt") (by decide) (by decide)⟩

end Socklink
